import Mathlib

/-!
Verification of the binance-syncer repository: a shallow embedding of the
coverage reconciler, the remote catalog listing loops, the transfer pipeline
retry logic, the time-column canonicalizer and the whole-catalog sweep, with
theorems settling the specification claims about them.
-/

namespace BinanceSyncer

/-! ### Coverage reconciler

Embedding of `BinanceDataSync.compute_dates_cover`
(src/binance_syncer/binance_data_sync.py, lines 158-173).  Date tokens are
strings; coverage sets are finite sets of strings.  In the source the local
listing and the two remote listings are performed first; here they are the
four input sets (local months and days are the local tokens of length 7
resp. 10, remote months and days come from the two remote file listings).
-/

/-- The month part of a day token: `d[:7]` in the source. -/
def monthOf (d : String) : String := d.take 7

/-- The dictionary returned by `compute_dates_cover`: keys M_DL, D_DL, D_RM. -/
structure ReconciliationResult where
  M_DL : Finset String
  D_DL : Finset String
  D_RM : Finset String
  deriving DecidableEq

/-- `compute_dates_cover`, lines 170-173 of binance_data_sync.py:
`days_to_remove = {d for d in local_days if d[:7] in remote_months}`,
`days_to_have = {d for d in remote_days if d[:7] not in remote_months}`,
result `M_DL = remote_months - local_months`, `D_DL = days_to_have - local_days`,
`D_RM = days_to_remove`. -/
def compute_dates_cover (local_days local_months remote_days remote_months : Finset String) :
    ReconciliationResult where
  M_DL := remote_months \ local_months
  D_DL := (remote_days.filter (fun d => monthOf d ∉ remote_months)) \ local_days
  D_RM := local_days.filter (fun d => monthOf d ∈ remote_months)

/-- Membership in the months-to-fetch set of `compute_dates_cover`. -/
lemma mem_M_DL (lD lM rD rM : Finset String) (d : String) :
    d ∈ (compute_dates_cover lD lM rD rM).M_DL ↔ d ∈ rM ∧ d ∉ lM := by
  simp [compute_dates_cover, Finset.mem_sdiff]

/-- Membership in the days-to-fetch set of `compute_dates_cover`. -/
lemma mem_D_DL (lD lM rD rM : Finset String) (d : String) :
    d ∈ (compute_dates_cover lD lM rD rM).D_DL ↔
      (d ∈ rD ∧ monthOf d ∉ rM) ∧ d ∉ lD := by
  simp [compute_dates_cover, Finset.mem_sdiff, Finset.mem_filter]

/-- Membership in the days-to-remove set of `compute_dates_cover`. -/
lemma mem_D_RM (lD lM rD rM : Finset String) (d : String) :
    d ∈ (compute_dates_cover lD lM rD rM).D_RM ↔ d ∈ lD ∧ monthOf d ∈ rM := by
  simp [compute_dates_cover, Finset.mem_filter]

/-- C1: `compute_dates_cover` returns exactly the sets the specification gives:
months to fetch are the remote months not local, days to fetch are the remote
days whose month is not remotely covered minus the local days, days to remove
are the local days whose month is remotely covered; on the concrete example of
the specification it returns MonthsToFetch = 2024-01,
DaysToFetch = 2024-02-11, DaysToRemove = 2024-01-05. -/
theorem reconcile_sets_characterization :
    (∀ lD lM rD rM : Finset String, ∀ d : String,
        (d ∈ (compute_dates_cover lD lM rD rM).M_DL ↔ d ∈ rM ∧ d ∉ lM) ∧
        (d ∈ (compute_dates_cover lD lM rD rM).D_DL ↔
          (d ∈ rD ∧ monthOf d ∉ rM) ∧ d ∉ lD) ∧
        (d ∈ (compute_dates_cover lD lM rD rM).D_RM ↔ d ∈ lD ∧ monthOf d ∈ rM)) ∧
    compute_dates_cover
      ({"2024-01-05", "2024-02-10"} : Finset String) (∅ : Finset String)
      ({"2024-02-10", "2024-02-11"} : Finset String) ({"2024-01"} : Finset String)
      = ⟨{"2024-01"}, {"2024-02-11"}, {"2024-01-05"}⟩ := by
  exact ⟨fun lD lM rD rM d =>
    ⟨mem_M_DL lD lM rD rM d, mem_D_DL lD lM rD rM d, mem_D_RM lD lM rD rM d⟩,
    by decide⟩

/-- C2: reconciliation is idempotent.  After applying the result to the local
coverage (add the fetched months, remove the removed days, add the fetched
days), a second run of `compute_dates_cover` with the same remote coverage
returns three empty sets. -/
theorem reconcile_idempotent (lD lM rD rM : Finset String) :
    ((compute_dates_cover
        ((lD \ (compute_dates_cover lD lM rD rM).D_RM) ∪
          (compute_dates_cover lD lM rD rM).D_DL)
        (lM ∪ (compute_dates_cover lD lM rD rM).M_DL) rD rM).M_DL = ∅) ∧
    ((compute_dates_cover
        ((lD \ (compute_dates_cover lD lM rD rM).D_RM) ∪
          (compute_dates_cover lD lM rD rM).D_DL)
        (lM ∪ (compute_dates_cover lD lM rD rM).M_DL) rD rM).D_DL = ∅) ∧
    ((compute_dates_cover
        ((lD \ (compute_dates_cover lD lM rD rM).D_RM) ∪
          (compute_dates_cover lD lM rD rM).D_DL)
        (lM ∪ (compute_dates_cover lD lM rD rM).M_DL) rD rM).D_RM = ∅) := by
  refine ⟨?_, ?_, ?_⟩
  · refine Finset.eq_empty_of_forall_not_mem fun d hd => ?_
    rw [mem_M_DL] at hd
    apply hd.2
    by_cases hl : d ∈ lM
    · exact Finset.mem_union_left _ hl
    · exact Finset.mem_union_right _ ((mem_M_DL lD lM rD rM d).mpr ⟨hd.1, hl⟩)
  · refine Finset.eq_empty_of_forall_not_mem fun d hd => ?_
    rw [mem_D_DL] at hd
    obtain ⟨⟨hrD, hnm⟩, hnl⟩ := hd
    apply hnl
    by_cases hl : d ∈ lD
    · exact Finset.mem_union_left _ (Finset.mem_sdiff.mpr ⟨hl, fun hrm =>
        hnm ((mem_D_RM lD lM rD rM d).mp hrm).2⟩)
    · exact Finset.mem_union_right _ ((mem_D_DL lD lM rD rM d).mpr ⟨⟨hrD, hnm⟩, hl⟩)
  · refine Finset.eq_empty_of_forall_not_mem fun d hd => ?_
    rw [mem_D_RM] at hd
    rcases Finset.mem_union.mp hd.1 with hsd | hdl
    · obtain ⟨hl, hnrm⟩ := Finset.mem_sdiff.mp hsd
      exact hnrm ((mem_D_RM lD lM rD rM d).mpr ⟨hl, hd.2⟩)
    · exact ((mem_D_DL lD lM rD rM d).mp hdl).1.2 hd.2

/-- C9: the days-to-remove set does not depend on the remote daily coverage:
two runs of `compute_dates_cover` that differ only in the remote days produce
the same D_RM, and every removed day has its covering month in the remote
monthly coverage. -/
theorem daysToRemove_ignores_remote_days (lD lM rM rD rD' : Finset String) :
    (compute_dates_cover lD lM rD rM).D_RM = (compute_dates_cover lD lM rD' rM).D_RM ∧
    ∀ d ∈ (compute_dates_cover lD lM rD rM).D_RM, monthOf d ∈ rM := by
  refine ⟨rfl, fun d hd => ?_⟩
  simp only [compute_dates_cover, Finset.mem_filter] at hd
  exact hd.2

/-- Witness for C9 at a concrete input: the removed day 2024-01-05 has its
month 2024-01 in the remote monthly coverage. -/
theorem daysToRemove_ignores_remote_days_witness :
    monthOf "2024-01-05" ∈ ({"2024-01"} : Finset String) :=
  (daysToRemove_ignores_remote_days {"2024-01-05"} ∅ {"2024-01"} ∅ ∅).2
    "2024-01-05" (by decide)

/-! ### Time-column canonicalizer

Embedding of `safe_parse_time` (src/binance_syncer/utils.py, lines 64-75).
The source samples `series.iloc[0]` and tries the pandas units ms, us, ns in
that order.  For each unit the `try` body performs up to two conversions:
first the sample is converted with `pd.to_datetime(..., unit=unit)` — an
overflow of the pandas nanosecond timestamp range raises and the unit is
skipped; if the sample converts and its year satisfies
`2000 < ts.year < datetime.now().year + 2`, the WHOLE COLUMN is converted by
the accepting `return pd.to_datetime(pd.to_numeric(series, ...), unit=unit)`,
which is still inside the `try`: if any later element overflows the range
under this unit, that conversion raises OutOfBoundsDatetime, the
`except Exception: continue` catches it and the unit is skipped even though
the sample was plausible.  (`pd.to_numeric(..., errors='coerce')` itself
never raises, and on an integer column it returns the integers unchanged, so
the range overflow is the only series-level failure.)  If no unit is
accepted the source raises ValueError; on an empty series `series.iloc[0]`
itself raises IndexError.  The embedding keeps the observable decision:
which unit is chosen, or which error is raised.  The series holds the
integer epoch values of the column.
-/

/-- The three epoch units the source tries, in order. -/
inductive TimeUnit where
  | ms
  | us
  | ns
  deriving DecidableEq

/-- Nanoseconds in one tick of each unit. -/
def nsPerUnit : TimeUnit → Int
  | .ms => 1000000
  | .us => 1000
  | .ns => 1

/-- Civil-calendar year of a day count since the Unix epoch (negative days
reach before 1970); the standard inverse of days-from-civil. -/
def civilYearOfDays (days : Int) : Int :=
  let z := days + 719468
  let era := z.fdiv 146097
  let doe := z - era * 146097
  let yoe := (doe - doe / 1460 + doe / 36524 - doe / 146096) / 365
  let y := yoe + era * 400
  let doy := doe - (365 * yoe + yoe / 4 - yoe / 100)
  let mp := (5 * doy + 2) / 153
  let m := if mp < 10 then mp + 3 else mp - 9
  if m ≤ 2 then y + 1 else y

/-- The UTC year of the timestamp `ns` nanoseconds after the Unix epoch. -/
def yearOfEpochNs (ns : Int) : Int := civilYearOfDays (ns.fdiv 86400000000000)

/-- Pandas timestamps are 64-bit signed nanosecond counts; a conversion
outside this range raises OutOfBoundsDatetime, which the source catches and
treats as a rejection of the unit. -/
def tsRepresentable (ns : Int) : Bool :=
  decide (-9223372036854775808 < ns ∧ ns < 9223372036854775808)

/-- The acceptance test of one unit on the sampled element:
conversion representable and `2000 < year < now.year + 2`. -/
def plausibleUnit (nowYear : Int) (u : TimeUnit) (v : Int) : Bool :=
  tsRepresentable (v * nsPerUnit u) &&
    decide (2000 < yearOfEpochNs (v * nsPerUnit u) ∧
      yearOfEpochNs (v * nsPerUnit u) < nowYear + 2)

/-- The accepting conversion of the whole column: it succeeds exactly when
every element is representable under the unit; otherwise it raises inside
the `try` and the unit is skipped. -/
def seriesConvertible (u : TimeUnit) (series : List Int) : Bool :=
  series.all (fun x => tsRepresentable (x * nsPerUnit u))

/-- One iteration of the unit loop reaches the `return` exactly when the
sampled element is plausible AND the whole-column conversion succeeds; a
sample failure (overflow or implausible year) and a column overflow after a
plausible sample all lead to the next unit. -/
def acceptUnit (nowYear : Int) (u : TimeUnit) (sample : Int) (series : List Int) : Bool :=
  plausibleUnit nowYear u sample && seriesConvertible u series

/-- The `for unit in ["ms", "us", "ns"]` loop: first accepted unit wins. -/
def tryUnits (nowYear : Int) (series : List Int) (sample : Int) :
    List TimeUnit → Option TimeUnit
  | [] => none
  | u :: more =>
    if acceptUnit nowYear u sample series then some u
    else tryUnits nowYear series sample more

/-- The errors `safe_parse_time` can raise: IndexError from `series.iloc[0]`
on an empty series, ValueError when no unit is accepted. -/
inductive ParseTimeError where
  | indexError
  | valueError
  deriving DecidableEq

/-- `safe_parse_time`, utils.py lines 64-75, reduced to its unit decision:
sample the first element, try ms, us, ns in order, return the first unit
whose sample is plausible and whose whole-column conversion succeeds, else
ValueError; an empty series fails earlier with IndexError. -/
def safe_parse_time (nowYear : Int) (series : List Int) :
    Except ParseTimeError TimeUnit :=
  match series with
  | [] => .error .indexError
  | sample :: rest =>
    match tryUnits nowYear (sample :: rest) sample [.ms, .us, .ns] with
    | some u => .ok u
    | none => .error .valueError

/-- A unit whose sample test passes has a representable sample. -/
lemma plausible_representable (nowYear : Int) (u : TimeUnit) (x : Int)
    (h : plausibleUnit nowYear u x = true) :
    tsRepresentable (x * nsPerUnit u) = true := by
  simp only [plausibleUnit, Bool.and_eq_true] at h
  exact h.1

/-- An element representable under milliseconds is representable under every
unit (the other multipliers are smaller). -/
lemma representable_of_ms (x : Int) (h : tsRepresentable (x * nsPerUnit .ms) = true) :
    ∀ u : TimeUnit, tsRepresentable (x * nsPerUnit u) = true := by
  intro u
  cases u with
  | ms => exact h
  | us =>
    simp only [tsRepresentable, nsPerUnit, decide_eq_true_eq] at h ⊢
    omega
  | ns =>
    simp only [tsRepresentable, nsPerUnit, decide_eq_true_eq] at h ⊢
    omega

/-- Counterexample for C10: two columns with the same first element
2020-01-01-in-milliseconds but different outcomes.  With tail `[0]` the
column converts under milliseconds and ms is accepted; with tail `[2 ^ 62]`
the whole-column conversion overflows the pandas range under milliseconds,
the unit is skipped despite the plausible first element, no other unit has a
plausible sample and the call fails with the parse error.  The accepted unit
is therefore not determined by the first element alone. -/
theorem safe_parse_time_tail_matters :
    safe_parse_time 2026 [1577836800000, 0] = .ok .ms ∧
    safe_parse_time 2026 [1577836800000, 4611686018427387904] =
      .error .valueError ∧
    (Except.ok TimeUnit.ms : Except ParseTimeError TimeUnit) ≠
      .error .valueError := by
  refine ⟨rfl, rfl, fun h => Except.noConfusion h⟩

/-- C10 as amended: the canonicalizer needs a non-empty column — on the
empty series it fails with the indexing error, not the documented parse
error.  On a non-empty column the plausibility window is consulted for the
first element only, but the outcome also depends on the later values through
the whole-column conversion: the tail influences the decision exactly
through per-unit representability (columns with equally convertible tails
give equal outcomes), and whenever every later element is in the pandas
range under milliseconds (hence under every unit) the decision is the
head-only chain over the first element's window tests. -/
theorem safe_parse_time_head_decides_window (nowYear v : Int)
    (rest rest' : List Int) :
    safe_parse_time nowYear [] =
      (.error .indexError : Except ParseTimeError TimeUnit) ∧
    ((∀ u : TimeUnit, seriesConvertible u (v :: rest) = seriesConvertible u (v :: rest'))
      → safe_parse_time nowYear (v :: rest) = safe_parse_time nowYear (v :: rest')) ∧
    (rest.all (fun x => tsRepresentable (x * nsPerUnit .ms)) = true →
      safe_parse_time nowYear (v :: rest) =
        if plausibleUnit nowYear .ms v then .ok .ms
        else if plausibleUnit nowYear .us v then .ok .us
        else if plausibleUnit nowYear .ns v then .ok .ns
        else .error .valueError) := by
  refine ⟨rfl, ?_, ?_⟩
  · intro h
    simp only [safe_parse_time, tryUnits, acceptUnit,
      h TimeUnit.ms, h TimeUnit.us, h TimeUnit.ns]
  · intro hrest
    have hconv : ∀ u : TimeUnit, plausibleUnit nowYear u v = true →
        seriesConvertible u (v :: rest) = true := by
      intro u hp
      rw [seriesConvertible, List.all_eq_true]
      intro x hx
      rcases List.mem_cons.mp hx with hx | hx
      · rw [hx]
        exact plausible_representable nowYear u v hp
      · exact representable_of_ms x (List.all_eq_true.mp hrest x hx) u
    have haeq : ∀ u : TimeUnit,
        acceptUnit nowYear u v (v :: rest) = plausibleUnit nowYear u v := by
      intro u
      by_cases hp : plausibleUnit nowYear u v = true
      · rw [acceptUnit, hp, hconv u hp, Bool.and_self]
      · rw [Bool.not_eq_true] at hp
        rw [acceptUnit, hp, Bool.false_and]
    simp only [safe_parse_time, tryUnits, haeq]
    by_cases hms : plausibleUnit nowYear .ms v <;>
      by_cases hus : plausibleUnit nowYear .us v <;>
        by_cases hns : plausibleUnit nowYear .ns v <;>
          simp [hms, hus, hns]

/-- Witness for C10 as amended at concrete inputs: two columns with the same
head and equally convertible tails give the same outcome, and a column whose
tail is in range under every unit follows the head-only chain, here
accepting milliseconds. -/
theorem safe_parse_time_head_decides_window_witness :
    safe_parse_time 2026 [1577836800000, 0] = safe_parse_time 2026 [1577836800000, 1] ∧
    safe_parse_time 2026 [1577836800000, 0] = .ok .ms := by
  refine ⟨(safe_parse_time_head_decides_window 2026 1577836800000 [0] [1]).2.1 ?_, ?_⟩
  · intro u
    cases u <;> decide
  · have h := (safe_parse_time_head_decides_window 2026 1577836800000 [0] [1]).2.2
      (by decide)
    rw [h, if_pos (by decide)]

/-- Counterexample for C5: on the two-element column
`[1577836800000, 0]` (the first element is 2020-01-01 in milliseconds, the
second is the epoch itself) the source accepts milliseconds although the
converted second value has year 1970, outside the window; the claim, which
accepts a unit only when the converted values of the column fall in the
window, would have to reject every unit and fail with a parse error. -/
theorem safe_parse_time_counterexample :
    safe_parse_time 2026 [1577836800000, 0] = .ok .ms ∧
    yearOfEpochNs (0 * nsPerUnit .ms) < 2001 ∧
    ¬ (∀ v ∈ [(1577836800000 : Int), 0],
        2000 < yearOfEpochNs (v * nsPerUnit .ms) ∧
        yearOfEpochNs (v * nsPerUnit .ms) < 2026 + 2) := by
  refine ⟨rfl, by decide, fun h => ?_⟩
  have h0 := (h 0 (by simp)).1
  revert h0
  decide

/-- C5 as amended: the canonicalizer tries ms, us, ns in that order and (for
a non-empty integer column) accepts the first unit under which the converted
first element is pandas-representable with calendar year in
[2001, current-year + 1] AND the whole column converts within the pandas
timestamp range — otherwise the accepting full-column conversion raises
inside the `try` and the unit is skipped; when no unit passes, the item
fails with the parse error.  (In `download_and_store` this is applied only
to the open_time and close_time columns and only for the klines category.) -/
theorem safe_parse_time_first_unit (nowYear v : Int) (rest : List Int) :
    (safe_parse_time nowYear (v :: rest) = .ok .ms ↔
      acceptUnit nowYear .ms v (v :: rest) = true) ∧
    (safe_parse_time nowYear (v :: rest) = .ok .us ↔
      acceptUnit nowYear .ms v (v :: rest) = false ∧
        acceptUnit nowYear .us v (v :: rest) = true) ∧
    (safe_parse_time nowYear (v :: rest) = .ok .ns ↔
      acceptUnit nowYear .ms v (v :: rest) = false ∧
        acceptUnit nowYear .us v (v :: rest) = false ∧
          acceptUnit nowYear .ns v (v :: rest) = true) ∧
    (safe_parse_time nowYear (v :: rest) = .error .valueError ↔
      acceptUnit nowYear .ms v (v :: rest) = false ∧
        acceptUnit nowYear .us v (v :: rest) = false ∧
          acceptUnit nowYear .ns v (v :: rest) = false) ∧
    (∀ u : TimeUnit, acceptUnit nowYear u v (v :: rest) = true ↔
      (tsRepresentable (v * nsPerUnit u) = true ∧
        2001 ≤ yearOfEpochNs (v * nsPerUnit u) ∧
        yearOfEpochNs (v * nsPerUnit u) ≤ nowYear + 1) ∧
      ∀ x ∈ v :: rest, tsRepresentable (x * nsPerUnit u) = true) := by
  have hsplit : ∀ u : TimeUnit, acceptUnit nowYear u v (v :: rest) = true ↔
      (tsRepresentable (v * nsPerUnit u) = true ∧
        2001 ≤ yearOfEpochNs (v * nsPerUnit u) ∧
        yearOfEpochNs (v * nsPerUnit u) ≤ nowYear + 1) ∧
      ∀ x ∈ v :: rest, tsRepresentable (x * nsPerUnit u) = true := by
    intro u
    simp only [acceptUnit, plausibleUnit, seriesConvertible, Bool.and_eq_true,
      decide_eq_true_eq, List.all_eq_true]
    constructor
    · rintro ⟨⟨h1, h2, h3⟩, h4⟩
      exact ⟨⟨h1, by omega, by omega⟩, h4⟩
    · rintro ⟨⟨h1, h2, h3⟩, h4⟩
      exact ⟨⟨h1, by omega, by omega⟩, h4⟩
  refine ⟨?_, ?_, ?_, ?_, hsplit⟩ <;>
    · simp only [safe_parse_time, tryUnits]
      by_cases hms : acceptUnit nowYear .ms v (v :: rest) = true <;>
        by_cases hus : acceptUnit nowYear .us v (v :: rest) = true <;>
          by_cases hns : acceptUnit nowYear .ns v (v :: rest) = true <;>
            simp [hms, hus, hns]

/-- Witness for C5 as amended at a concrete input: the single-element column
2020-01-01-in-milliseconds accepts milliseconds through the ms-acceptance
characterization. -/
theorem safe_parse_time_first_unit_witness :
    safe_parse_time 2026 [1577836800000] = .ok .ms :=
  (safe_parse_time_first_unit 2026 1577836800000 []).1.mpr (by decide)

/-! ### Transfer pipeline

Embedding of `BinanceDataSync.download_and_store`
(binance_data_sync.py, lines 430-499).  The observable behaviour of one call
is its trace: the returned boolean, how many download attempts were made
(`session.get`), how many times the destination artifact was written
(parquet upload or local write), and the backoff delays slept.  A download
attempt covers the whole try body (download, unzip, decode, canonicalize,
write): any exception in it is caught by the one `except Exception` handler
and retried, so one boolean per attempt index captures it.  In `s3` mode the
call first issues a head request on the destination: present means return
True at once; a head failure other than 404 returns False at once.  In
filesystem mode there is no existence check before the loop. -/

/-- The `storage_mode` of the syncer: object store or local filesystem. -/
inductive StorageMode where
  | s3
  | fs
  deriving DecidableEq

/-- Observable trace of one `download_and_store` call. -/
structure TransferTrace where
  result : Bool
  downloads : Nat
  writes : Nat
  sleeps : List Nat
  deriving DecidableEq

/-- The retry loop body, lines 447-499: attempts are numbered from `attempt`,
`remaining` attempts are left (`remaining = max_retries + 1 - attempt`).  On
success the attempt downloads and writes once; on failure it downloads once
and, unless it was the last attempt, sleeps `2 ** attempt` and retries. -/
def downloadLoopGo (attemptOk : Nat → Bool) : Nat → Nat → TransferTrace
  | _, 0 => ⟨false, 0, 0, []⟩
  | attempt, r + 1 =>
    if attemptOk attempt then ⟨true, 1, 1, []⟩
    else if r = 0 then ⟨false, 1, 0, []⟩
    else
      let rest := downloadLoopGo attemptOk (attempt + 1) r
      ⟨rest.result, rest.downloads + 1, rest.writes, 2 ^ attempt :: rest.sleeps⟩

/-- `for attempt in range(max_retries + 1)`: the retry loop started at
attempt 0. -/
def downloadLoop (attemptOk : Nat → Bool) (max_retries : Nat) : TransferTrace :=
  downloadLoopGo attemptOk 0 (max_retries + 1)

/-- `download_and_store`: in s3 mode, the head short-circuit (lines 435-444),
then the retry loop; in filesystem mode, the retry loop directly.
`destExists` says whether the destination artifact already exists, `headErr`
whether the s3 head request fails with a non-404 error. -/
def download_and_store (mode : StorageMode) (destExists headErr : Bool)
    (attemptOk : Nat → Bool) (max_retries : Nat) : TransferTrace :=
  match mode with
  | .s3 =>
    if destExists then ⟨true, 0, 0, []⟩
    else if headErr then ⟨false, 0, 0, []⟩
    else downloadLoop attemptOk max_retries
  | .fs => downloadLoop attemptOk max_retries

/-- One item of a download batch in `sync_symbol` (lines 276-295). -/
structure TransferItem where
  destExists : Bool
  headErr : Bool
  attemptOk : Nat → Bool

/-- One batch of `sync_symbol`: every task of the batch is run
(`asyncio.gather(..., return_exceptions=True)`) and yields its own trace. -/
def runBatch (mode : StorageMode) (max_retries : Nat) (items : List TransferItem) :
    List TransferTrace :=
  items.map (fun it => download_and_store mode it.destExists it.headErr it.attemptOk max_retries)

/-- `success_count = sum(1 for r in results if r is True)`. -/
def successCount (results : List TransferTrace) : Nat :=
  (results.filter (fun t => t.result)).length

/-- `failed_count = len(batch_tasks) - success_count`. -/
def failedCount (results : List TransferTrace) : Nat :=
  results.length - successCount results

/-- Counterexample for C4: in filesystem mode with the destination artifact
already present, `download_and_store` does not short-circuit: it downloads
the archive and rewrites the destination (one download, one write), instead
of skipping with no download and no write as the claim states for both
backends. -/
theorem download_fs_overwrites_existing :
    ¬ ((download_and_store .fs true false (fun _ => true) 3).downloads = 0 ∧
        (download_and_store .fs true false (fun _ => true) 3).writes = 0) ∧
    download_and_store .fs true false (fun _ => true) 3 =
      ⟨true, 1, 1, []⟩ := by
  exact ⟨fun h => by simpa [download_and_store, downloadLoop, downloadLoopGo] using h.1,
    by decide⟩

/-- C4 as amended: only the object-store backend short-circuits on an
existing destination — the head check returns at once with a success and no
download or write — while the filesystem transfer behaves identically
whether or not the destination artifact exists (it downloads and rewrites
it; reconciliation normally keeps already-covered dates out of the fetch
list). -/
theorem download_skip_existing_s3_only (headErr : Bool) (attemptOk : Nat → Bool)
    (max_retries : Nat) :
    download_and_store .s3 true headErr attemptOk max_retries = ⟨true, 0, 0, []⟩ ∧
    download_and_store .fs true headErr attemptOk max_retries =
      download_and_store .fs false headErr attemptOk max_retries :=
  ⟨rfl, rfl⟩

/-- The retry loop under uniformly failing attempts, attempts numbered from
`a` with `r + 1` attempts left: every attempt downloads once, the delays are
`2 ^ a, 2 ^ (a+1), ...`, nothing is written and the call fails. -/
lemma downloadLoopGo_all_fail (attemptOk : Nat → Bool) :
    ∀ (r a : Nat), (∀ i, a ≤ i → i ≤ a + r → attemptOk i = false) →
    downloadLoopGo attemptOk a (r + 1) =
      ⟨false, r + 1, 0, (List.range r).map (fun j => 2 ^ (a + j))⟩ := by
  intro r
  induction r with
  | zero =>
    intro a h
    simp [downloadLoopGo, h a le_rfl (by omega)]
  | succ n ih =>
    intro a h
    have ha : attemptOk a = false := h a le_rfl (by omega)
    have hrec := ih (a + 1) (fun i h1 h2 => h i (by omega) (by omega))
    rw [downloadLoopGo, if_neg (by simp [ha]), if_neg (Nat.succ_ne_zero n)]
    simp only [hrec, TransferTrace.mk.injEq]
    refine ⟨trivial, trivial, trivial, ?_⟩
    rw [List.range_succ_eq_map]
    simp only [List.map_cons, List.map_map, Nat.add_zero, List.cons.injEq]
    refine ⟨trivial, List.map_congr_left fun j _ => ?_⟩
    exact congrArg (2 ^ ·) (by omega)

/-- C6: a transfer whose every attempt fails is attempted exactly
`max_retries + 1` times, with a delay of `2 ^ i` after failed attempt `i`
(so 1, 2, 4, ...), writes nothing and is recorded as failed; and the failing
item never aborts its batch: every other item of the batch still runs with
its own unchanged trace, and the batch counts every item as either a success
or a failure. -/
theorem retry_budget_and_batch_isolation (attemptOk : Nat → Bool) (max_retries : Nat)
    (hfail : ∀ i, i ≤ max_retries → attemptOk i = false) :
    downloadLoop attemptOk max_retries =
      ⟨false, max_retries + 1, 0, (List.range max_retries).map (fun i => 2 ^ i)⟩ ∧
    (∀ (mode : StorageMode) (pre post : List TransferItem) (dE hE : Bool),
      runBatch mode max_retries (pre ++ ⟨dE, hE, attemptOk⟩ :: post) =
        runBatch mode max_retries pre ++
          download_and_store mode dE hE attemptOk max_retries ::
            runBatch mode max_retries post) ∧
    (∀ (mode : StorageMode) (items : List TransferItem),
      successCount (runBatch mode max_retries items) +
          failedCount (runBatch mode max_retries items) = items.length ∧
      failedCount (runBatch mode max_retries items) =
        ((runBatch mode max_retries items).filter (fun t => !t.result)).length) := by
  refine ⟨?_, ?_, ?_⟩
  · have h := downloadLoopGo_all_fail attemptOk max_retries 0
      (fun i h1 h2 => hfail i (by omega))
    rw [downloadLoop, h]
    simp
  · intro mode pre post dE hE
    simp [runBatch]
  · intro mode items
    have hlen : (runBatch mode max_retries items).length = items.length := by
      simp [runBatch]
    have hsplit := List.length_eq_length_filter_add
      (l := runBatch mode max_retries items) (fun t => t.result)
    refine ⟨?_, ?_⟩ <;>
      · rw [failedCount, successCount]
        omega

/-- Witness for C6 at a concrete input: four attempts, delays 1, 2, 4, no
write, recorded failed. -/
theorem retry_budget_and_batch_isolation_witness :
    downloadLoop (fun _ => false) 3 = ⟨false, 4, 0, [1, 2, 4]⟩ :=
  ((retry_budget_and_batch_isolation (fun _ => false) 3 (fun _ _ => rfl)).1).trans
    (by decide)

/-! ### Remote catalog client

Embedding of `BinanceDataSync.list_remote_symbols` (lines 72-114) and
`BinanceDataSync.list_remote_files` (lines 175-219).  A listing page is the
parsed XML response: HTTP status, the extracted items (symbol names from the
common-prefix entries after the split/strip munging, resp. raw object keys of
the content entries), the truncation flag, and the optional NextMarker field.

For the symbols loop the server is modelled as the sequence of responses it
gives to the successive requests; the marker the code would send is still
computed, because computing it can raise: on a truncated page with no
NextMarker the code evaluates `symbols[-1]`, which raises IndexError when no
symbol has been accumulated, is caught by the broad handler and re-raised,
aborting the whole call.

For the files loop the next page genuinely depends on the marker sent, so the
server is a function from the marker to a page and the embedding also records
the chronological list of markers requested; the loop runs on fuel, enough
fuel being available in every statement proved about it. -/

/-- A parsed symbol-listing page. -/
structure SymbolsPage where
  status : Nat
  syms : List String
  isTruncated : Bool
  nextMarker : Option String

/-- The non-empty symbol names one page contributes (`if sym:` keeps only
non-empty strings after the split/strip munging). -/
def pageSyms (q : SymbolsPage) : List String := q.syms.filter (fun s => s ≠ "")

/-- The `while True` loop of `list_remote_symbols`: accumulate the non-empty
symbol names of each successful page, stop on a non-200 status or a
non-truncated page, recompute the marker after a truncated page
(NextMarker if present, else the last accumulated symbol — IndexError when
there is none).  Returns the raw accumulated list and the number of
requests issued, or an error for the re-raised IndexError. -/
def listSymbolsGo : List SymbolsPage → List String → Except Unit (List String × Nat)
  | [], acc => .ok (acc, 0)
  | p :: rest, acc =>
    if p.status ≠ 200 then .ok (acc, 1)
    else
      let acc' := acc ++ pageSyms p
      if p.isTruncated then
        match p.nextMarker with
        | some _ =>
          match listSymbolsGo rest acc' with
          | .ok (res, n) => .ok (res, n + 1)
          | .error e => .error e
        | none =>
          match acc'.getLast? with
          | some _ =>
            match listSymbolsGo rest acc' with
            | .ok (res, n) => .ok (res, n + 1)
            | .error e => .error e
          | none => .error ()
      else .ok (acc', 1)

/-- `list(sorted(set(symbols)))`. -/
def sortDedup (l : List String) : List String :=
  l.dedup.mergeSort (fun a b => decide (a ≤ b))

/-- `list_remote_symbols`: run the listing loop from an empty accumulator and
return the sorted deduplicated symbols with the request count. -/
def list_remote_symbols (pages : List SymbolsPage) : Except Unit (List String × Nat) :=
  match listSymbolsGo pages [] with
  | .ok (acc, n) => .ok (sortDedup acc, n)
  | .error e => .error e

/-- A parsed file-listing page. -/
structure FilesPage where
  status : Nat
  keys : List String
  isTruncated : Bool
  nextMarker : Option String

/-- Suffix test on the character sequences of two strings, the semantics of
the python `str.endswith`. -/
def strEndsWith (s suf : String) : Bool := decide (suf.data <:+ s.data)

/-- The archive-key filter of `list_remote_files`, line 204:
`key.endswith(".zip") and not key.endswith(".zip.CHECKSUM")`. -/
def isArchiveKey (k : String) : Bool :=
  strEndsWith k ".zip" && !(strEndsWith k ".zip.CHECKSUM")

/-- The `while True` loop of `list_remote_files`: request the page for the
current marker; stop on non-200 status, on a page with no content entries, or
after a non-truncated page; keep the archive keys of each page; after a
truncated page the next marker is always the LAST RAW KEY of the page
(line 208) — the NextMarker field is never consulted, unlike the symbols
loop.  Returns the accumulated files and the markers requested, in order. -/
def listFilesGo (server : Option String → FilesPage) :
    Nat → Option String → List String × List (Option String)
  | 0, _ => ([], [])
  | fuel + 1, marker =>
    if (server marker).status ≠ 200 then ([], [marker])
    else if (server marker).keys.isEmpty then ([], [marker])
    else if (server marker).isTruncated then
      ((server marker).keys.filter isArchiveKey ++
          (listFilesGo server fuel (some ((server marker).keys.getLastD ""))).1,
        marker :: (listFilesGo server fuel (some ((server marker).keys.getLastD ""))).2)
    else ((server marker).keys.filter isArchiveKey, [marker])

/-- `list_remote_files`: the loop started with no marker. -/
def list_remote_files (server : Option String → FilesPage) (fuel : Nat) :
    List String × List (Option String) :=
  listFilesGo server fuel none

/-- A page the symbols loop can paginate past: successful, truncated, and
able to produce the next marker (a NextMarker field, or at least one symbol
of its own to stand at the end of the accumulator). -/
def Paginates (q : SymbolsPage) : Prop :=
  q.status = 200 ∧ q.isTruncated = true ∧
    (q.nextMarker.isSome = true ∨ pageSyms q ≠ [])

/-- Running the symbols loop across a block of pages it paginates past
accumulates their contributions and adds one request per page. -/
lemma listSymbolsGo_block (rest : List SymbolsPage) :
    ∀ (pre : List SymbolsPage) (acc : List String), (∀ q ∈ pre, Paginates q) →
      listSymbolsGo (pre ++ rest) acc =
        match listSymbolsGo rest (acc ++ pre.flatMap pageSyms) with
        | .ok (res, n) => .ok (res, n + pre.length)
        | .error e => .error e := by
  intro pre
  induction pre with
  | nil =>
    intro acc _
    rcases h : listSymbolsGo rest acc with e | ⟨res, n⟩ <;> simp [h]
  | cons q pre ih =>
    intro acc hq
    obtain ⟨h200, htr, hmk⟩ := hq q (List.mem_cons_self q pre)
    have hrec := ih (acc ++ pageSyms q) (fun r hr => hq r (List.mem_cons_of_mem q hr))
    have hacc : acc ++ pageSyms q ++ pre.flatMap pageSyms =
        acc ++ (q :: pre).flatMap pageSyms := by simp
    rw [hacc] at hrec
    rw [List.cons_append, listSymbolsGo]
    rw [if_neg (by simp [h200]), htr, if_pos rfl]
    rcases hnm : q.nextMarker with _ | m
    · rcases hmk with hs | hs
      · rw [hnm] at hs
        simp at hs
      · have hne : acc ++ pageSyms q ≠ [] := by
          intro hcon
          exact hs (List.append_eq_nil.mp hcon).2
        obtain ⟨x, hx⟩ := Option.isSome_iff_exists.mp (List.getLast?_isSome.mpr hne)
        rw [hx, hrec]
        rcases listSymbolsGo rest (acc ++ (q :: pre).flatMap pageSyms) with e | ⟨res, n⟩ <;>
          simp [Nat.add_assoc, Nat.add_comm 1 pre.length]
    · rw [hrec]
      rcases listSymbolsGo rest (acc ++ (q :: pre).flatMap pageSyms) with e | ⟨res, n⟩ <;>
        simp [Nat.add_assoc, Nat.add_comm 1 pre.length]

/-- C8 as amended: when every page before page N is successful, truncated and
supplies a continuation token or has contributed a symbol (as real
delimiter listings do), and page N is the first page with truncation false
(resp. the first non-success page), `list_remote_symbols` issues exactly N
requests and returns the sorted deduplicated union of the symbol names of
pages 1..N (resp. of pages 1..N-1, what was accumulated before the failed
request). -/
theorem list_symbols_pagination (pre : List SymbolsPage) (p : SymbolsPage)
    (rest : List SymbolsPage) (hpre : ∀ q ∈ pre, Paginates q) :
    (p.status = 200 → p.isTruncated = false →
      list_remote_symbols (pre ++ p :: rest) =
        .ok (sortDedup ((pre ++ [p]).flatMap pageSyms), pre.length + 1)) ∧
    (p.status ≠ 200 →
      list_remote_symbols (pre ++ p :: rest) =
        .ok (sortDedup (pre.flatMap pageSyms), pre.length + 1)) := by
  constructor
  · intro h200 htr
    have hstop : listSymbolsGo (p :: rest) (pre.flatMap pageSyms) =
        .ok (pre.flatMap pageSyms ++ pageSyms p, 1) := by
      simp [listSymbolsGo, h200, htr, pageSyms]
    rw [list_remote_symbols, listSymbolsGo_block (p :: rest) pre [] hpre]
    simp only [List.nil_append, hstop]
    have : pre.flatMap pageSyms ++ pageSyms p = (pre ++ [p]).flatMap pageSyms := by
      simp
    rw [this, Nat.add_comm]
  · intro h200
    have hstop : listSymbolsGo (p :: rest) (pre.flatMap pageSyms) =
        .ok (pre.flatMap pageSyms, 1) := by
      simp [listSymbolsGo, h200]
    rw [list_remote_symbols, listSymbolsGo_block (p :: rest) pre [] hpre]
    simp only [List.nil_append, hstop]
    rw [Nat.add_comm]

/-- Witness for C8 at a concrete input: one truncated page with a marker then
a final page; two requests, the union of both pages sorted and deduplicated. -/
theorem list_symbols_pagination_witness :
    list_remote_symbols
        [⟨200, ["ETHUSDT", "BTCUSDT"], true, some "BTCUSDT"⟩,
          ⟨200, ["BTCUSDT"], false, none⟩] =
      .ok (sortDedup ["ETHUSDT", "BTCUSDT", "BTCUSDT"], 2) := by
  have h := (list_symbols_pagination
      [⟨200, ["ETHUSDT", "BTCUSDT"], true, some "BTCUSDT"⟩]
      ⟨200, ["BTCUSDT"], false, none⟩ []
      (by intro q hq; simp at hq; subst hq; exact ⟨rfl, rfl, Or.inl rfl⟩)).1 rfl rfl
  simpa [pageSyms] using h

/-- Counterexample for C8: a listing source whose first page is truncated but
carries no items and no continuation token, followed by a non-truncated page.
The claim promises two requests and the union of both pages; the code instead
evaluates `symbols[-1]` on the empty accumulator, the IndexError is re-raised
and the call aborts with no result at all. -/
theorem list_symbols_counterexample :
    list_remote_symbols [⟨200, [], true, none⟩, ⟨200, ["BTCUSDT"], false, none⟩] =
      .error () ∧
    ∀ n : Nat,
      list_remote_symbols [⟨200, [], true, none⟩, ⟨200, ["BTCUSDT"], false, none⟩] ≠
        .ok (sortDedup ["BTCUSDT"], n) := by
  refine ⟨rfl, fun n h => ?_⟩
  rw [show list_remote_symbols
      [⟨200, ([] : List String), true, none⟩, ⟨200, ["BTCUSDT"], false, none⟩] =
      .error () from rfl] at h
  exact Except.noConfusion h

/-- A concrete file-listing server: the first page (no marker) is truncated
and supplies the continuation token TOKEN; the page at marker TOKEN and the
page at the first page's last key differ, making the marker choice
observable. -/
def fileServerCex : Option String → FilesPage := fun m =>
  match m with
  | none => ⟨200, ["a-1.zip"], true, some "TOKEN"⟩
  | some s =>
    if s = "TOKEN" then ⟨200, ["b-token.zip"], false, none⟩
    else ⟨200, ["c-last.zip"], false, none⟩

/-- Counterexample for C7: `list_remote_files` does not follow the symbols
loop's marker discipline.  On a truncated page that supplies the continuation
token TOKEN, the second request is made at the page's last raw key, TOKEN is
never requested and the result contains the page at the last key, not the
page the token points to. -/
theorem list_files_counterexample :
    (fileServerCex none).nextMarker = some "TOKEN" ∧
    list_remote_files fileServerCex 5 =
      (["a-1.zip", "c-last.zip"], [none, some "a-1.zip"]) ∧
    some "TOKEN" ∉ (list_remote_files fileServerCex 5).2 ∧
    "b-token.zip" ∉ (list_remote_files fileServerCex 5).1 := by
  refine ⟨rfl, rfl, ?_, ?_⟩ <;> decide

/-- Every key of every page of the files loop is given to `isArchiveKey`. -/
lemma listFilesGo_keys (server : Option String → FilesPage) :
    ∀ (fuel : Nat) (marker : Option String),
      ∀ k ∈ (listFilesGo server fuel marker).1, isArchiveKey k = true := by
  intro fuel
  induction fuel with
  | zero => intro marker k hk; simp [listFilesGo] at hk
  | succ n ih =>
    intro marker k hk
    rw [listFilesGo] at hk
    by_cases h200 : (server marker).status ≠ 200
    · rw [if_pos h200] at hk
      simp at hk
    · rw [if_neg h200] at hk
      by_cases hemp : (server marker).keys.isEmpty
      · rw [if_pos hemp] at hk
        simp at hk
      · rw [if_neg hemp] at hk
        by_cases htr : (server marker).isTruncated
        · rw [if_pos htr] at hk
          rcases List.mem_append.mp hk with h | h
          · exact (List.mem_filter.mp h).2
          · exact ih _ k h
        · rw [if_neg htr] at hk
          exact (List.mem_filter.mp hk).2

/-- With fuel left, the first marker the files loop requests is the marker it
was started with. -/
lemma listFilesGo_head (server : Option String → FilesPage) (fuel : Nat)
    (marker : Option String) :
    ((listFilesGo server (fuel + 1) marker).2).head? = some marker := by
  rw [listFilesGo]
  by_cases h200 : (server marker).status ≠ 200
  · rw [if_pos h200]
    rfl
  · rw [if_neg h200]
    by_cases hemp : (server marker).keys.isEmpty
    · rw [if_pos hemp]
      rfl
    · rw [if_neg hemp]
      by_cases htr : (server marker).isTruncated
      · rw [if_pos htr]
        rfl
      · rw [if_neg htr]
        rfl

/-- Consecutive markers requested by the files loop: each later request is
made at the last raw key of the previous request's page. -/
lemma listFilesGo_chain (server : Option String → FilesPage) :
    ∀ (fuel : Nat) (marker : Option String),
      List.Chain' (fun m m' => m' = some ((server m).keys.getLastD ""))
        (listFilesGo server fuel marker).2 := by
  intro fuel
  induction fuel with
  | zero => intro marker; simp [listFilesGo]
  | succ n ih =>
    intro marker
    rw [listFilesGo]
    by_cases h200 : (server marker).status ≠ 200
    · rw [if_pos h200]
      simp
    · rw [if_neg h200]
      by_cases hemp : (server marker).keys.isEmpty
      · rw [if_pos hemp]
        simp
      · rw [if_neg hemp]
        by_cases htr : (server marker).isTruncated
        · rw [if_pos htr]
          refine List.chain'_cons'.mpr ⟨?_, ih _⟩
          intro m' hm'
          rcases n with _ | n
          · simp [listFilesGo] at hm'
          · rw [listFilesGo_head server n] at hm'
            cases hm'
            rfl
        · rw [if_neg htr]
          simp

/-- C7 as amended: `list_remote_files` filters every returned key through the
archive-key test (ends in .zip and not in .zip.CHECKSUM); its pagination
differs from the symbols loop in that after a truncated page the next request
is always made at the page's last raw content key — the server-supplied
NextMarker is ignored — and besides the non-truncated-page stop it also stops
on a page with no content entries; when the very first page is successful and
non-truncated the loop issues exactly one request and returns that page's
archive keys. -/
theorem list_files_pagination (server : Option String → FilesPage) (fuel : Nat) :
    (∀ k ∈ (list_remote_files server fuel).1, isArchiveKey k = true) ∧
    List.Chain' (fun m m' => m' = some ((server m).keys.getLastD ""))
      (list_remote_files server fuel).2 ∧
    (1 ≤ fuel → (list_remote_files server fuel).2.head? = some none) ∧
    (1 ≤ fuel → (server none).status = 200 → (server none).isTruncated = false →
      list_remote_files server fuel =
        ((server none).keys.filter isArchiveKey, [none])) ∧
    (1 ≤ fuel → (server none).status = 200 → (server none).keys = [] →
      list_remote_files server fuel = ([], [none])) := by
  refine ⟨listFilesGo_keys server fuel none, listFilesGo_chain server fuel none,
    ?_, ?_, ?_⟩
  · intro hfuel
    rcases fuel with _ | n
    · omega
    · exact listFilesGo_head server n none
  · intro hfuel h200 htr
    rcases fuel with _ | n
    · omega
    · rw [list_remote_files, listFilesGo, if_neg (by simp [h200])]
      by_cases hemp : (server none).keys.isEmpty
      · rw [if_pos hemp]
        have : (server none).keys = [] := List.isEmpty_iff.mp hemp
        simp [this]
      · rw [if_neg hemp, if_neg (by simp [htr])]
  · intro hfuel h200 hkeys
    rcases fuel with _ | n
    · omega
    · rw [list_remote_files, listFilesGo, if_neg (by simp [h200]),
        if_pos (by simp [hkeys])]

/-- Witness for C7 at a concrete input: a single successful non-truncated
page; one request, and only the .zip keys that are not checksum sidecars are
returned. -/
theorem list_files_pagination_witness :
    list_remote_files (fun _ => ⟨200, ["x.zip", "x.zip.CHECKSUM", "y.txt"], false, none⟩) 3 =
      (["x.zip"], [none]) := by
  have h := (list_files_pagination
      (fun _ => ⟨200, ["x.zip", "x.zip.CHECKSUM", "y.txt"], false, none⟩) 3).2.2.2.1
    (by omega) rfl rfl
  rw [h]
  refine Prod.ext ?_ rfl
  decide

/-! ### Whole-catalog sweep

Embedding of `BinanceDataSync.sync` (lines 658-684).  The sweep partitions
the symbol list into waves of `SYMBOL_CONCURRENCY * 2` symbols (both with
and without the progress bar) and awaits `asyncio.gather` over the wave
WITHOUT `return_exceptions=True`: every task of the wave is started, but if
one raises — a listing failure in `list_remote_files` propagates through
`compute_dates_cover` and `sync_symbol` uncaught — the `await` re-raises and
the `for` loop over waves is abandoned.  `ok s` abstracts whether the sync of
symbol `s` completes without raising a listing failure.  The result records
which symbols had their sync started and whether the sweep ran to completion
or aborted.  The recursion runs on fuel `symbols.length`, which always
suffices since every step drops a non-empty batch. -/

/-- `SYMBOL_CONCURRENCY = 10`, line 20. -/
def SYMBOL_CONCURRENCY : Nat := 10

/-- Outcome of the sweep: ran to completion, or aborted by an uncaught
exception; in both cases with the symbols whose sync was started, in
order. -/
inductive SweepResult where
  | completed (executed : List String)
  | aborted (executed : List String)
  deriving DecidableEq

/-- The symbols whose sync was started. -/
def SweepResult.executed : SweepResult → List String
  | .completed ex => ex
  | .aborted ex => ex

/-- The wave loop `for i in range(0, len(symbols), SYMBOL_CONCURRENCY * 2)`:
run the batch `symbols[i:i + SYMBOL_CONCURRENCY * 2]`; if every task of the
batch completes, continue with the remaining symbols, otherwise the gather
re-raises and no later wave starts. -/
def syncFuel (ok : String → Bool) : Nat → List String → SweepResult
  | _, [] => .completed []
  | 0, _ :: _ => .completed []
  | fuel + 1, s :: rest =>
    if ((s :: rest).take (SYMBOL_CONCURRENCY * 2)).all ok then
      match syncFuel ok fuel ((s :: rest).drop (SYMBOL_CONCURRENCY * 2)) with
      | .completed ex => .completed ((s :: rest).take (SYMBOL_CONCURRENCY * 2) ++ ex)
      | .aborted ex => .aborted ((s :: rest).take (SYMBOL_CONCURRENCY * 2) ++ ex)
    else .aborted ((s :: rest).take (SYMBOL_CONCURRENCY * 2))

/-- `sync`: the wave loop over the whole symbol list. -/
def sync (ok : String → Bool) (symbols : List String) : SweepResult :=
  syncFuel ok symbols.length symbols

/-- The fuel only needs to cover the list length. -/
lemma syncFuel_fuel_irrel (ok : String → Bool) :
    ∀ (f1 : Nat) (l : List String) (f2 : Nat), l.length ≤ f1 → l.length ≤ f2 →
      syncFuel ok f1 l = syncFuel ok f2 l := by
  intro f1
  induction f1 with
  | zero =>
    intro l f2 h1 _
    rcases l with _ | ⟨s, rest⟩
    · cases f2 <;> rfl
    · simp at h1
  | succ n ih =>
    intro l f2 h1 h2
    rcases l with _ | ⟨s, rest⟩
    · cases f2 <;> rfl
    · rcases f2 with _ | m
      · simp at h2
      · rw [syncFuel, syncFuel]
        have hdrop : ((s :: rest).drop (SYMBOL_CONCURRENCY * 2)).length ≤ n := by
          simp only [List.length_drop, List.length_cons, SYMBOL_CONCURRENCY] at *
          omega
        have hdrop2 : ((s :: rest).drop (SYMBOL_CONCURRENCY * 2)).length ≤ m := by
          simp only [List.length_drop, List.length_cons, SYMBOL_CONCURRENCY] at *
          omega
        rw [ih ((s :: rest).drop (SYMBOL_CONCURRENCY * 2)) m hdrop hdrop2]

/-- Unfolding equation of `sync` on a non-empty symbol list. -/
lemma sync_cons (ok : String → Bool) (s : String) (rest : List String) :
    sync ok (s :: rest) =
      if ((s :: rest).take (SYMBOL_CONCURRENCY * 2)).all ok then
        match sync ok ((s :: rest).drop (SYMBOL_CONCURRENCY * 2)) with
        | .completed ex => .completed ((s :: rest).take (SYMBOL_CONCURRENCY * 2) ++ ex)
        | .aborted ex => .aborted ((s :: rest).take (SYMBOL_CONCURRENCY * 2) ++ ex)
      else .aborted ((s :: rest).take (SYMBOL_CONCURRENCY * 2)) := by
  rw [sync, show (s :: rest).length = rest.length + 1 from rfl, syncFuel]
  rw [sync, syncFuel_fuel_irrel ok rest.length ((s :: rest).drop (SYMBOL_CONCURRENCY * 2))
    ((s :: rest).drop (SYMBOL_CONCURRENCY * 2)).length
    (by simp only [List.length_drop, List.length_cons, SYMBOL_CONCURRENCY]; omega) le_rfl]

/-- A fully successful suffix of the symbol list is swept to completion. -/
lemma syncFuel_all_ok (ok : String → Bool) :
    ∀ (fuel : Nat) (l : List String), l.length ≤ fuel → l.all ok = true →
      syncFuel ok fuel l = .completed l := by
  intro fuel
  induction fuel with
  | zero =>
    intro l h _
    rcases l with _ | ⟨s, rest⟩
    · rfl
    · simp at h
  | succ n ih =>
    intro l h hall
    rcases l with _ | ⟨s, rest⟩
    · rfl
    · rw [syncFuel]
      have htake : ((s :: rest).take (SYMBOL_CONCURRENCY * 2)).all ok = true := by
        rw [List.all_eq_true] at hall ⊢
        exact fun x hx => hall x (List.take_subset _ _ hx)
      have hdropall : ((s :: rest).drop (SYMBOL_CONCURRENCY * 2)).all ok = true := by
        rw [List.all_eq_true] at hall ⊢
        exact fun x hx => hall x (List.drop_subset _ _ hx)
      have hlen : ((s :: rest).drop (SYMBOL_CONCURRENCY * 2)).length ≤ n := by
        simp only [List.length_drop, List.length_cons, SYMBOL_CONCURRENCY] at *
        omega
      rw [if_pos htake, ih _ hlen hdropall]
      simp [List.take_append_drop]

/-- The executed symbols are always an initial segment of the symbol list. -/
lemma syncFuel_executed_take (ok : String → Bool) :
    ∀ (fuel : Nat) (l : List String), l.length ≤ fuel →
      ∃ k : Nat, (syncFuel ok fuel l).executed = l.take k := by
  intro fuel
  induction fuel with
  | zero =>
    intro l h
    rcases l with _ | ⟨s, rest⟩
    · exact ⟨0, rfl⟩
    · simp at h
  | succ n ih =>
    intro l h
    rcases l with _ | ⟨s, rest⟩
    · exact ⟨0, rfl⟩
    · rw [syncFuel]
      by_cases htake : ((s :: rest).take (SYMBOL_CONCURRENCY * 2)).all ok = true
      · rw [if_pos htake]
        have hlen : ((s :: rest).drop (SYMBOL_CONCURRENCY * 2)).length ≤ n := by
          simp only [List.length_drop, List.length_cons, SYMBOL_CONCURRENCY] at *
          omega
        obtain ⟨k, hk⟩ := ih ((s :: rest).drop (SYMBOL_CONCURRENCY * 2)) hlen
        refine ⟨SYMBOL_CONCURRENCY * 2 + k, ?_⟩
        rw [List.take_add]
        rcases hres : syncFuel ok n ((s :: rest).drop (SYMBOL_CONCURRENCY * 2)) with ex | ex <;>
          · rw [hres] at hk
            simp only [SweepResult.executed] at hk ⊢
            rw [hk]
      · rw [if_neg htake]
        exact ⟨SYMBOL_CONCURRENCY * 2, rfl⟩

/-- C3 as amended: a listing failure aborts the whole-catalog sweep at the
end of its wave.  A symbol list whose every sync succeeds is swept to
completion; a wave containing a failing symbol is still fully started
(gather launches every task of the wave) but the re-raised exception aborts
the sweep there, so the executed symbols are exactly that first failing wave
and the waves before it, and no symbol of any later wave is synced; the
executed symbols always form an initial segment of the symbol list. -/
theorem sync_listing_failure_aborts_sweep (ok : String → Bool) :
    (∀ symbols : List String, symbols.all ok = true →
      sync ok symbols = .completed symbols) ∧
    (∀ symbols : List String,
      (symbols.take (SYMBOL_CONCURRENCY * 2)).all ok = false →
      sync ok symbols = .aborted (symbols.take (SYMBOL_CONCURRENCY * 2))) ∧
    (∀ symbols : List String, symbols ≠ [] →
      (symbols.take (SYMBOL_CONCURRENCY * 2)).all ok = true →
      (sync ok symbols).executed =
        symbols.take (SYMBOL_CONCURRENCY * 2) ++
          (sync ok (symbols.drop (SYMBOL_CONCURRENCY * 2))).executed) ∧
    (∀ symbols : List String, ∃ k : Nat,
      (sync ok symbols).executed = symbols.take k) := by
  refine ⟨fun l hall => syncFuel_all_ok ok l.length l le_rfl hall, ?_, ?_, ?_⟩
  · intro l htake
    rcases l with _ | ⟨s, rest⟩
    · simp at htake
    · rw [sync_cons, if_neg (by simp [htake])]
  · intro l hne htake
    rcases l with _ | ⟨s, rest⟩
    · exact absurd rfl hne
    · rw [sync_cons, if_pos htake]
      rcases sync ok ((s :: rest).drop (SYMBOL_CONCURRENCY * 2)) with ex | ex <;> rfl
  · intro l
    exact syncFuel_executed_take ok l.length l le_rfl

/-- Witness for C3 as amended, at concrete inputs: an all-successful
single-symbol sweep completes; a single-symbol sweep whose listing fails
aborts. -/
theorem sync_listing_failure_aborts_sweep_witness :
    sync (fun _ => true) ["BTCUSDT"] = .completed ["BTCUSDT"] ∧
    sync (fun _ => false) ["ETHUSDT"] = .aborted ["ETHUSDT"] := by
  constructor
  · exact (sync_listing_failure_aborts_sweep (fun _ => true)).1 ["BTCUSDT"] (by decide)
  · have h := (sync_listing_failure_aborts_sweep (fun _ => false)).2.1 ["ETHUSDT"]
      (by decide)
    rw [show ["ETHUSDT"].take (SYMBOL_CONCURRENCY * 2) = ["ETHUSDT"] from rfl] at h
    exact h

/-- Twenty-one symbols: two waves of the sweep (20 + 1). -/
def syms21 : List String :=
  ["S00", "S01", "S02", "S03", "S04", "S05", "S06", "S07", "S08", "S09",
    "S10", "S11", "S12", "S13", "S14", "S15", "S16", "S17", "S18", "S19",
    "S20"]

/-- Counterexample for C3: with 21 symbols and a listing failure on the first
symbol only, the sweep aborts after the first wave of 20: the sync of S20,
a symbol of a later wave whose own listing would succeed, is never run, so a
listing failure for one symbol does abort the whole-catalog sweep. -/
theorem sync_counterexample :
    sync (fun s => decide (s ≠ "S00")) syms21 = .aborted (syms21.take 20) ∧
    "S20" ∈ syms21 ∧
    "S20" ∉ (sync (fun s => decide (s ≠ "S00")) syms21).executed := by
  refine ⟨?_, ?_, ?_⟩ <;> decide

end BinanceSyncer
